import Mathlib

/-!
Shallow embedding of the content-based recommendation engine in
src/recommender/content_based.py (class ContentBasedRecommender), together
with the database rows it reads and the thin API layer in
src/api/main.py and src/api/recommendations.py.

Numeric values are modelled over an arbitrary linear ordered field K with
two function parameters standing for the transcendental operations used by
the numeric libraries: sqrt (Euclidean norms in sklearn normalize /
cosine_similarity) and lg (the natural logarithm in the smoothed IDF
formula of TfidfVectorizer).  The faithful instance is K = real numbers,
sqrt = Real.sqrt, lg = Real.log; concrete evaluations instantiate K with
the rationals and functions that agree with the real ones on every value
actually reached by the evaluation.  The stop word list is the sw field of
the context, standing for the frozen sklearn english list selected by
TfidfVectorizer(stop_words = english).
-/

namespace RecEngine

/- The rational arithmetic operations are irreducible by default, which
only blocks elaborator-side evaluation; making them semireducible again
lets concrete evaluations go through the kernel via decide. -/
attribute [local semireducible] Rat.add Rat.mul Rat.sub Rat.inv

/-- Row of the movies table (columns read by the recommender). -/
structure MovieRow where
  id : String
  title : String
  genres : String
  start_year : Int
deriving DecidableEq

/-- Row of the movie_ratings table. -/
structure RatingRow where
  movie_id : String
  avg_rating : ℚ
  num_votes : Int
deriving DecidableEq

/-- Row of the viewing_history table (columns read by the recommender). -/
structure ViewRow where
  user_id : String
  movie_id : String
deriving DecidableEq

/-- The database state visible to the recommender. -/
structure Db where
  movies : List MovieRow
  ratings : List RatingRow
  viewing_history : List ViewRow
deriving DecidableEq

/-- Result row of the metadata and popularity SELECTs:
id, title, genres, avg_rating, start_year. -/
structure MetaRow where
  id : String
  title : String
  genres : String
  avg_rating : ℚ
  start_year : Int
deriving DecidableEq

def emptyStr : String := ""

/-! SQL modelling: joins are nested loops in table order, DISTINCT keeps the
first occurrence, ORDER BY is a stable insertion sort. -/

/-- First-occurrence deduplication, modelling SELECT DISTINCT. -/
def dedupF {α : Type} [DecidableEq α] (l : List α) : List α :=
  l.foldl (fun acc a => if a ∈ acc then acc else acc ++ [a]) []

/-- Stable descending insertion by avg_rating, for ORDER BY avg_rating DESC. -/
def insMeta (a : MetaRow) : List MetaRow → List MetaRow
  | [] => [a]
  | b :: l => if b.avg_rating ≤ a.avg_rating then a :: b :: l else b :: insMeta a l

/-- ORDER BY avg_rating DESC as a stable insertion sort. -/
def sortByRatingDesc (l : List MetaRow) : List MetaRow :=
  l.foldr insMeta []

/-- Join of movies with movie_ratings on m.id = mr.movie_id, keeping rating
rows satisfying p, projected to the metadata result columns. -/
def joinRows (db : Db) (p : RatingRow → Bool) : List MetaRow :=
  db.movies.flatMap (fun m =>
    (db.ratings.filter (fun r => r.movie_id == m.id && p r)).map
      (fun r => ⟨m.id, m.title, m.genres, r.avg_rating, m.start_year⟩))

/-! Embedding of ContentBasedRecommender.__init__ : the snapshot query
SELECT m.id, m.title, m.genres, mr.num_votes FROM movies m JOIN
movie_ratings mr ON m.id = mr.movie_id WHERE mr.num_votes > 1000. -/

/-- Rows returned by the snapshot query at initialization. -/
def snapshotRows (db : Db) : List (MovieRow × RatingRow) :=
  db.movies.flatMap (fun m =>
    (db.ratings.filter (fun r => r.movie_id == m.id && decide (1000 < r.num_votes))).map
      (fun r => (m, r)))

/-- self.movie_ids : ids of the snapshot rows, in snapshot order. -/
def movie_ids (db : Db) : List String :=
  (snapshotRows db).map (fun pr => pr.1.id)

/-- self.movie_texts : the title followed by a space and the genres string. -/
def movie_texts (db : Db) : List String :=
  (snapshotRows db).map (fun pr => pr.1.title ++ " " ++ pr.1.genres)

/-- Lookup in the Python dict built by enumeration: a later duplicate key
overwrites an earlier one, so the lookup returns the LAST index holding the
key.  Models self.movie_id_to_index. -/
def dictLookup : List String → String → Option Nat
  | [], _ => none
  | y :: l, x =>
    match dictLookup l x with
    | some j => some (j + 1)
    | none => if y == x then some 0 else none

/-- self.movie_id_to_index as a partial map. -/
def movie_id_to_index (db : Db) (x : String) : Option Nat :=
  dictLookup (movie_ids db) x

/-- self.index_to_movie_id : positions enumerate distinct keys, so the dict
is exactly positional lookup in movie_ids. -/
def index_to_movie_id (db : Db) (i : Nat) : String :=
  (movie_ids db).getD i emptyStr

/-! Tokenizer of TfidfVectorizer with its defaults: lowercase the document,
take maximal runs of word characters of length at least two (the default
token pattern), then drop stop words. -/

def isWordChar (c : Char) : Bool := c.isAlphanum || c == '_'

/-- Maximal runs of word characters in a character list; cur accumulates the
current run reversed. -/
def wordRuns : List Char → List Char → List String
  | [], cur => if cur.isEmpty then [] else [String.mk cur.reverse]
  | c :: cs, cur =>
    if isWordChar c then wordRuns cs (c :: cur)
    else if cur.isEmpty then wordRuns cs [] else String.mk cur.reverse :: wordRuns cs []

/-- Tokenization of one document: lowercase, runs of word characters of
length at least 2, stop words removed. -/
def tokenize (sw : List String) (s : String) : List String :=
  ((wordRuns (s.toList.map Char.toLower) []).filter (fun t => 2 ≤ t.length)).filter
    (fun t => ¬ t ∈ sw)

/-- Vocabulary fitted on a corpus: the set of tokens appearing in any
document (sklearn stores it sorted; no downstream value depends on the
order, so the fitting order is kept). -/
def vocabularyOf (sw : List String) (corpus : List String) : List String :=
  dedupF (corpus.flatMap (tokenize sw))

/-- Number of documents of the corpus containing the term. -/
def dfCount (sw : List String) (corpus : List String) (t : String) : Nat :=
  (corpus.filter (fun d => (tokenize sw d).contains t)).length

/-- Numeric context: the field operations the pipeline is parameterized by.
sqrt stands for the square root, lg for the natural logarithm, sw for the
english stop word list. -/
structure Ctx (K : Type) where
  sqrt : K → K
  lg : K → K
  sw : List String

variable {K : Type} [LinearOrderedField K] [DecidableEq K]

/-- Dot product of two term-weight functions over the vocabulary. -/
def dotV (vocab : List String) (u v : String → K) : K :=
  (vocab.map (fun t => u t * v t)).sum

/-- sklearn normalize with norm l2: divide by the Euclidean norm, a zero
norm being replaced by 1 first (norms[norms == 0.0] = 1.0), so the zero
vector is returned unchanged. -/
def l2normalize (C : Ctx K) (vocab : List String) (w : String → K) : String → K :=
  let nrm := C.sqrt (dotV vocab w w)
  let d := if nrm = 0 then 1 else nrm
  fun t => w t / d

/-- sklearn cosine_similarity of two vectors: l2-normalize both, then dot. -/
def cosineSim (C : Ctx K) (vocab : List String) (u v : String → K) : K :=
  dotV vocab (l2normalize C vocab u) (l2normalize C vocab v)

/-- Smoothed IDF of TfidfVectorizer: log((1 + n) / (1 + df)) + 1. -/
def idfF (C : Ctx K) (corpus : List String) (t : String) : K :=
  C.lg (((corpus.length : K) + 1) / ((dfCount C.sw corpus t : K) + 1)) + 1

/-- Unnormalized tf-idf weights of one document: raw count times IDF. -/
def tfidfRaw (C : Ctx K) (corpus : List String) (doc : String) : String → K :=
  fun t => ((tokenize C.sw doc).count t : K) * idfF C corpus t

/-- Row i of self.tfidf_matrix : tf-idf weights of document i, l2-normalized
(the TfidfVectorizer default norm). -/
def tfidfRow (C : Ctx K) (db : Db) (i : Nat) : String → K :=
  l2normalize C (vocabularyOf C.sw (movie_texts db))
    (tfidfRaw C (movie_texts db) ((movie_texts db).getD i emptyStr))

def emptyVocabMsg : String := "empty vocabulary"

/-- The fallible step of __init__ : TfidfVectorizer.fit_transform raises
ValueError (empty vocabulary) when no token survives fitting — both for an
empty corpus and for a corpus whose documents all reduce to nothing.
Everything else in __init__ is total, so initialization is modelled by this
single Except. -/
def initRecommender (C : Ctx K) (db : Db) : Except String Unit :=
  if vocabularyOf C.sw (movie_texts db) = [] then Except.error emptyVocabMsg
  else Except.ok ()

/-! Ranking machinery shared by both recommendation methods. -/

/-- Stable insertion of index i into a list already sorted by descending
score: i moves past exactly the indices of strictly smaller score, so equal
scores keep insertion order. -/
def insIdx (score : Nat → K) (i : Nat) : List Nat → List Nat
  | [] => [i]
  | j :: l => if score j < score i then i :: j :: l else j :: insIdx score i l

/-- np.argsort on the negated scores: indices 0..n-1 ordered by descending
score.  numpy leaves the order of equal keys unspecified (default
quicksort); the model fixes the stable order, and every theorem below that
is not a concrete evaluation is independent of the order of ties. -/
def argsortDesc (score : Nat → K) (n : Nat) : List Nat :=
  (List.range n).foldl (fun acc i => insIdx score i acc) []

/-- The accumulation loop shared by both methods: walk the ranked indices,
append f idx unless excluded, and after each step stop once the
accumulator has reached limit elements (the Python loop breaks after the
append, so the length check runs even on excluded indices). -/
def collectLoop (f : Nat → String) (ex : String → Bool) (limit : Nat) :
    List Nat → List String → List String
  | [], acc => acc
  | i :: l, acc =>
    let acc2 := if ex (f i) then acc else acc ++ [f i]
    if limit ≤ acc2.length then acc2 else collectLoop f ex limit l acc2

/-- Metadata lookup for the ranked ids: SELECT id, title, genres,
avg_rating, start_year on the movies and ratings join WHERE id IN recs —
followed by ORDER BY avg_rating DESC, which is the reordering at issue in
the ranking-preservation claim. -/
def metadataLookup (db : Db) (recs : List String) : List MetaRow :=
  sortByRatingDesc ((joinRows db (fun _ => true)).filter (fun row => recs.contains row.id))

/-- get_popular_movies : join filtered on num_votes > 10000, ORDER BY
avg_rating DESC, LIMIT limit. -/
def get_popular_movies (db : Db) (limit : Nat) : List MetaRow :=
  (sortByRatingDesc (joinRows db (fun r => decide (10000 < r.num_votes)))).take limit

/-! Embedding of get_similar_movies. -/

/-- Scores computed for get_similar_movies:
cosine_similarity(target_vector, tfidf_matrix) entry j. -/
def similarScores (C : Ctx K) (db : Db) (m : String) (j : Nat) : K :=
  cosineSim C (vocabularyOf C.sw (movie_texts db))
    (tfidfRow C db ((movie_id_to_index db m).getD 0)) (tfidfRow C db j)

/-- The ranked ids accumulated by the loop of get_similar_movies: walk the
argsorted indices, skip the queried id itself, stop at limit. -/
def similarRankedIds (C : Ctx K) (db : Db) (m : String) (limit : Nat) : List String :=
  collectLoop (index_to_movie_id db) (fun s => s == m) limit
    (argsortDesc (similarScores C db m) (movie_ids db).length) []

/-- get_similar_movies.  The second component counts the SQL queries the
method issues on its cursor (the metadata SELECT is the only one). -/
def get_similar_movies (C : Ctx K) (db : Db) (m : String) (limit : Nat) :
    List MetaRow × Nat :=
  if m ∈ movie_ids db then
    let recs := similarRankedIds C db m limit
    if recs = [] then ([], 0) else (metadataLookup db recs, 1)
  else ([], 0)

/-! Embedding of get_content_based_recommendations. -/

/-- The watched-movies query: SELECT DISTINCT m.id FROM viewing_history vh
JOIN movies m ON vh.movie_id = m.id JOIN movie_ratings mr ON m.id =
mr.movie_id WHERE vh.user_id = u AND mr.num_votes > 1000. -/
def userMovies (db : Db) (u : String) : List String :=
  dedupF ((db.viewing_history.filter (fun v => v.user_id == u)).flatMap (fun v =>
    (db.movies.filter (fun m => m.id == v.movie_id)).flatMap (fun m =>
      (db.ratings.filter (fun r => r.movie_id == m.id && decide (1000 < r.num_votes))).map
        (fun _ => m.id))))

/-- user_movie_indices : dict lookups of the watched ids present in the
index, in query order. -/
def user_movie_indices (db : Db) (u : String) : List Nat :=
  (userMovies db u).filterMap (movie_id_to_index db)

/-- user_profile : np.mean of the selected tfidf rows, i.e. the pointwise
sum of the selected rows divided by their number. -/
def user_profile (C : Ctx K) (db : Db) (u : String) : String → K :=
  fun t => ((user_movie_indices db u).map (fun i => tfidfRow C db i t)).sum /
    ((user_movie_indices db u).length : K)

/-- Scores computed for the personalized path:
cosine_similarity([user_profile], tfidf_matrix) entry j. -/
def contentScores (C : Ctx K) (db : Db) (u : String) (j : Nat) : K :=
  cosineSim C (vocabularyOf C.sw (movie_texts db)) (user_profile C db u) (tfidfRow C db j)

/-- The ranked ids accumulated by the loop of
get_content_based_recommendations: skip ids of the seen-set, stop at limit. -/
def contentRankedIds (C : Ctx K) (db : Db) (u : String) (limit : Nat) : List String :=
  collectLoop (index_to_movie_id db) (fun s => (userMovies db u).contains s) limit
    (argsortDesc (contentScores C db u) (movie_ids db).length) []

/-- get_content_based_recommendations.  The second component counts the SQL
queries issued on the cursor: the watched-movies query plus either the
popularity query of the fallback or the metadata SELECT. -/
def get_content_based_recommendations (C : Ctx K) (db : Db) (u : String) (limit : Nat) :
    List MetaRow × Nat :=
  let um := userMovies db u
  if um = [] then (get_popular_movies db limit, 2)
  else if user_movie_indices db u = [] then (get_popular_movies db limit, 2)
  else
    let recs := contentRankedIds C db u limit
    if recs = [] then (get_popular_movies db limit, 2)
    else (metadataLookup db recs, 2)

/-! Embedding of the API layer around the recommender (src/api/main.py
startup_event and src/api/recommendations.py).  A failed initialization is
re-raised by startup_event, so the recommender attribute is never set and
the endpoint dependency raises HTTPException(500); a successful path with
an empty result raises HTTPException(404). -/

/-- The recommendations endpoint as seen through the startup state: error
500 when initialization failed, error 404 when the result list is empty,
otherwise the list. -/
def api_get_recommendations (C : Ctx K) (db : Db) (u : String) :
    Except Nat (List MetaRow) :=
  match initRecommender C db with
  | Except.error _ => Except.error 500
  | Except.ok _ =>
    let res := (get_content_based_recommendations C db u 10).1
    if res = [] then Except.error 404 else Except.ok res

/-! Definitions modelled from the spec wording, for the refinement claims. -/

/-- Modelled from the spec: the element-wise mean of a list of vectors
(compute the mean of the N vectors first, then score once). -/
def specVectorMean (vs : List (String → K)) : String → K :=
  fun t => (vs.map (fun v => v t)).sum / (vs.length : K)

/-- Modelled from the spec: the contrasted alternative policy the spec
rules out — averaging the per-item similarity scores of the N watched
movies instead of averaging the vectors. -/
def specScoreAveraging (C : Ctx K) (db : Db) (u : String) (j : Nat) : K :=
  ((user_movie_indices db u).map (fun i =>
    cosineSim C (vocabularyOf C.sw (movie_texts db)) (tfidfRow C db i) (tfidfRow C db j))).sum /
    ((user_movie_indices db u).length : K)

/-- The watched set S of a user: the ids of the movies of the viewing
history of that user. -/
def watched (db : Db) (u : String) (x : String) : Prop :=
  ∃ v, v ∈ db.viewing_history ∧ v.user_id = u ∧ v.movie_id = x

/-- Key uniqueness guaranteed by the schema: movies is keyed by id and
movie_ratings by movie_id (the ingestion uses ON CONFLICT on these keys). -/
def WFdb (db : Db) : Prop :=
  (db.movies.map MovieRow.id).Nodup ∧ (db.ratings.map RatingRow.movie_id).Nodup

instance (db : Db) (u x : String) : Decidable (watched db u x) := by
  unfold watched; infer_instance

instance (db : Db) : Decidable (WFdb db) := by
  unfold WFdb; infer_instance

/-! Concrete instantiation over the rationals for evaluations.  The lg
parameter is irrelevant to every value reached below (all documents used in
concrete databases hold a single distinct token each, so normalization
cancels the IDF factor); it is set to the zero function, and sqrtQ agrees
with the real square root on every norm actually reached except 1/2, where
any positive value preserves the computed comparisons. -/

def sqrtQ : ℚ → ℚ :=
  fun x => if x = 1 then 1 else if x = 4 then 2 else if x = 1/2 then 7/10 else 0

def lgZ : ℚ → ℚ := fun _ => 0

def ctxQ : Ctx ℚ := ⟨sqrtQ, lgZ, []⟩

def s_tt1 : String := "tt1"
def s_tt2 : String := "tt2"
def s_tt3 : String := "tt3"
def s_rome : String := "rome"
def s_rome2 : String := "rome rome"
def s_pasta : String := "pasta"
def s_u1 : String := "u1"
def s_u2 : String := "u2"
def s_A : String := "A"
def s_zzz : String := "zzz"

/-- Catalog of three movies: tt1 and tt2 share their only token, tt3 is
disjoint; tt3 has the highest average rating. -/
def exDb1 : Db :=
  ⟨[⟨s_tt1, s_rome, emptyStr, 2000⟩, ⟨s_tt2, s_rome2, emptyStr, 2000⟩,
    ⟨s_tt3, s_pasta, emptyStr, 2000⟩],
   [⟨s_tt1, 5, 2000⟩, ⟨s_tt2, 5, 2000⟩, ⟨s_tt3, 9, 2000⟩], []⟩

/-- One highly voted movie, watched by the single user. -/
def exDb3 : Db :=
  ⟨[⟨s_tt1, s_pasta, emptyStr, 2000⟩], [⟨s_tt1, 8, 20000⟩], [⟨s_u1, s_tt1⟩]⟩

/-- Two movies with disjoint tokens; u1 watched the first, u2 watched both. -/
def exDb5 : Db :=
  ⟨[⟨s_tt1, s_rome, emptyStr, 2000⟩, ⟨s_tt2, s_pasta, emptyStr, 2000⟩],
   [⟨s_tt1, 5, 2000⟩, ⟨s_tt2, 6, 20000⟩],
   [⟨s_u1, s_tt1⟩, ⟨s_u2, s_tt1⟩, ⟨s_u2, s_tt2⟩]⟩

/-- The empty database: the snapshot query returns no rows. -/
def dbEmpty : Db := ⟨[], [], []⟩

/-- A single catalog entry whose text reduces to no token at all (the
single character title is below the two-character token threshold). -/
def dbC9 : Db := ⟨[⟨s_tt1, s_A, emptyStr, 1999⟩], [⟨s_tt1, 5, 2000⟩], []⟩

/-- An empty-token entry next to an entry with a real token. -/
def dbW9 : Db :=
  ⟨[⟨s_tt1, s_A, emptyStr, 1999⟩, ⟨s_tt2, s_pasta, emptyStr, 1999⟩],
   [⟨s_tt1, 5, 2000⟩, ⟨s_tt2, 6, 2000⟩], []⟩

/-! Helper lemmas on the list machinery. -/

theorem dedupF_go {α : Type} [DecidableEq α] (l : List α) (x : α) : ∀ acc : List α,
    (x ∈ l.foldl (fun acc a => if a ∈ acc then acc else acc ++ [a]) acc ↔ x ∈ acc ∨ x ∈ l) := by
  induction l with
  | nil => intro acc; simp
  | cons a l ih =>
    intro acc
    simp only [List.foldl_cons, ih]
    by_cases h : a ∈ acc
    · simp only [if_pos h, List.mem_cons]
      constructor
      · rintro (hx | hx)
        · exact Or.inl hx
        · exact Or.inr (Or.inr hx)
      · rintro (hx | rfl | hx)
        · exact Or.inl hx
        · exact Or.inl h
        · exact Or.inr hx
    · simp only [if_neg h, List.mem_append, List.mem_singleton, List.mem_cons]
      tauto

theorem mem_dedupF {α : Type} [DecidableEq α] {l : List α} {x : α} :
    x ∈ dedupF l ↔ x ∈ l := by
  simpa [dedupF] using dedupF_go l x []

theorem collectLoop_extends (f : Nat → String) (ex : String → Bool) (limit : Nat) :
    ∀ (l : List Nat) (acc : List String), ∃ t, collectLoop f ex limit l acc = acc ++ t := by
  intro l
  induction l with
  | nil => intro acc; exact ⟨[], by simp [collectLoop]⟩
  | cons i l ih =>
    intro acc
    by_cases hex : ex (f i) = true
    · simp only [collectLoop, if_pos hex]
      by_cases hl : limit ≤ acc.length
      · exact ⟨[], by simp [if_pos hl]⟩
      · obtain ⟨t, ht⟩ := ih acc
        exact ⟨t, by simp [if_neg hl, ht]⟩
    · simp only [collectLoop, if_neg hex]
      by_cases hl : limit ≤ (acc ++ [f i]).length
      · exact ⟨[f i], by rw [if_pos hl]⟩
      · obtain ⟨t, ht⟩ := ih (acc ++ [f i])
        exact ⟨[f i] ++ t, by rw [if_neg hl, ht, List.append_assoc]⟩

theorem collectLoop_length (f : Nat → String) (ex : String → Bool) (limit : Nat) :
    ∀ (l : List Nat) (acc : List String), acc.length < limit →
      (collectLoop f ex limit l acc).length ≤ limit := by
  intro l
  induction l with
  | nil => intro acc h; simpa [collectLoop] using Nat.le_of_lt h
  | cons i l ih =>
    intro acc h
    simp only [collectLoop]
    by_cases hex : ex (f i) = true
    · simp only [if_pos hex]
      by_cases hl : limit ≤ acc.length
      · simp [if_pos hl, Nat.le_of_lt h]
      · simpa [if_neg hl] using ih acc h
    · simp only [if_neg hex]
      have hlen : (acc ++ [f i]).length = acc.length + 1 := by simp
      by_cases hl : limit ≤ (acc ++ [f i]).length
      · rw [if_pos hl, hlen]
        exact h
      · rw [if_neg hl]
        exact ih (acc ++ [f i]) (by rw [hlen] at hl ⊢; exact Nat.lt_of_not_le hl)

theorem collectLoop_mem (f : Nat → String) (ex : String → Bool) (limit : Nat) :
    ∀ (l : List Nat) (acc : List String) (x : String),
      x ∈ collectLoop f ex limit l acc →
        x ∈ acc ∨ ∃ i, i ∈ l ∧ x = f i ∧ ex (f i) = false := by
  intro l
  induction l with
  | nil => intro acc x hx; exact Or.inl (by simpa [collectLoop] using hx)
  | cons i l ih =>
    intro acc x hx
    simp only [collectLoop] at hx
    by_cases hex : ex (f i) = true
    · rw [if_pos hex] at hx
      by_cases hl : limit ≤ acc.length
      · exact Or.inl (by rwa [if_pos hl] at hx)
      · rw [if_neg hl] at hx
        rcases ih acc x hx with h | ⟨j, hj, hxj, hje⟩
        · exact Or.inl h
        · exact Or.inr ⟨j, List.mem_cons_of_mem _ hj, hxj, hje⟩
    · rw [if_neg hex] at hx
      have hmem : x ∈ acc ++ [f i] → x ∈ acc ∨ ∃ j, j ∈ i :: l ∧ x = f j ∧ ex (f j) = false := by
        intro hx2
        rcases List.mem_append.1 hx2 with h | h
        · exact Or.inl h
        · exact Or.inr ⟨i, List.mem_cons_self i l,
            List.mem_singleton.1 h, Bool.not_eq_true _ ▸ hex⟩
      by_cases hl : limit ≤ (acc ++ [f i]).length
      · exact hmem (by rwa [if_pos hl] at hx)
      · rw [if_neg hl] at hx
        rcases ih (acc ++ [f i]) x hx with h | ⟨j, hj, hxj, hje⟩
        · exact hmem h
        · exact Or.inr ⟨j, List.mem_cons_of_mem _ hj, hxj, hje⟩

theorem collectLoop_ne_nil (f : Nat → String) (ex : String → Bool) (limit : Nat)
    (hlim : 1 ≤ limit) : ∀ (l : List Nat) (acc : List String),
      (∃ i, i ∈ l ∧ ex (f i) = false) → collectLoop f ex limit l acc ≠ [] := by
  intro l
  induction l with
  | nil => rintro acc ⟨i, hi, _⟩; exact absurd hi (List.not_mem_nil i)
  | cons i l ih =>
    rintro acc ⟨j, hj, hje⟩
    simp only [collectLoop]
    by_cases hex : ex (f i) = true
    · have hjl : j ∈ l := by
        rcases List.mem_cons.1 hj with rfl | h
        · rw [hje] at hex; exact absurd hex (by simp)
        · exact h
      rw [if_pos hex]
      by_cases hl : limit ≤ acc.length
      · rw [if_pos hl]
        intro hnil
        rw [hnil] at hl
        simp at hl
        omega
      · rw [if_neg hl]
        exact ih acc ⟨j, hjl, hje⟩
    · rw [if_neg hex]
      by_cases hl : limit ≤ (acc ++ [f i]).length
      · rw [if_pos hl]
        simp
      · rw [if_neg hl]
        obtain ⟨t, ht⟩ := collectLoop_extends f ex limit l (acc ++ [f i])
        rw [ht]
        simp

theorem mem_insIdx {K : Type} [LinearOrderedField K] [DecidableEq K]
    (score : Nat → K) (i x : Nat) : ∀ l : List Nat, (x ∈ insIdx score i l ↔ x = i ∨ x ∈ l) := by
  intro l
  induction l with
  | nil => simp [insIdx]
  | cons j l ih =>
    simp only [insIdx]
    by_cases h : score j < score i
    · simp [if_pos h]
    · simp only [if_neg h, List.mem_cons, ih]
      tauto

theorem argsortDesc_go {K : Type} [LinearOrderedField K] [DecidableEq K]
    (score : Nat → K) (L : List Nat) (x : Nat) : ∀ acc : List Nat,
    (x ∈ L.foldl (fun acc i => insIdx score i acc) acc ↔ x ∈ acc ∨ x ∈ L) := by
  induction L with
  | nil => intro acc; simp
  | cons i L ih =>
    intro acc
    simp only [List.foldl_cons, ih, mem_insIdx, List.mem_cons]
    tauto

theorem mem_argsortDesc {K : Type} [LinearOrderedField K] [DecidableEq K]
    (score : Nat → K) (n x : Nat) : x ∈ argsortDesc score n ↔ x < n := by
  simp [argsortDesc, argsortDesc_go, List.mem_range]

theorem mem_insMeta (a x : MetaRow) : ∀ l : List MetaRow, (x ∈ insMeta a l ↔ x = a ∨ x ∈ l) := by
  intro l
  induction l with
  | nil => simp [insMeta]
  | cons b l ih =>
    simp only [insMeta]
    by_cases h : b.avg_rating ≤ a.avg_rating
    · simp [if_pos h]
    · simp only [if_neg h, List.mem_cons, ih]
      tauto

theorem mem_sortByRatingDesc {l : List MetaRow} {x : MetaRow} :
    x ∈ sortByRatingDesc l ↔ x ∈ l := by
  induction l with
  | nil => simp [sortByRatingDesc]
  | cons a l ih =>
    show x ∈ insMeta a (sortByRatingDesc l) ↔ _
    rw [mem_insMeta, ih, List.mem_cons]

theorem length_insMeta (a : MetaRow) : ∀ l : List MetaRow,
    (insMeta a l).length = l.length + 1 := by
  intro l
  induction l with
  | nil => simp [insMeta]
  | cons b l ih =>
    simp only [insMeta]
    by_cases h : b.avg_rating ≤ a.avg_rating
    · simp [if_pos h]
    · simp [if_neg h, ih]

theorem length_sortByRatingDesc (l : List MetaRow) :
    (sortByRatingDesc l).length = l.length := by
  induction l with
  | nil => rfl
  | cons a l ih =>
    show (insMeta a (sortByRatingDesc l)).length = _
    rw [length_insMeta, ih, List.length_cons]

theorem getD_mem_of_lt : ∀ (l : List String) (i : Nat), i < l.length →
    l.getD i emptyStr ∈ l := by
  intro l
  induction l with
  | nil => intro i hi; simp at hi
  | cons y l ih =>
    intro i hi
    match i with
    | 0 => exact List.mem_cons_self y l
    | i + 1 =>
      exact List.mem_cons_of_mem y (ih i (by simpa using Nat.lt_of_succ_lt_succ hi))

theorem dictLookup_some : ∀ (l : List String) (x : String) (i : Nat),
    dictLookup l x = some i → i < l.length ∧ l.getD i emptyStr = x := by
  intro l
  induction l with
  | nil => intro x i h; simp [dictLookup] at h
  | cons y l ih =>
    intro x i h
    simp only [dictLookup] at h
    cases hd : dictLookup l x with
    | some j =>
      rw [hd] at h
      obtain ⟨hj, hg⟩ := ih x j hd
      have : j + 1 = i := by simpa using h
      subst this
      exact ⟨by simpa using Nat.succ_lt_succ hj, by simpa using hg⟩
    | none =>
      rw [hd] at h
      by_cases hy : y == x
      · rw [if_pos hy] at h
        have : (0 : Nat) = i := by simpa using h
        subst this
        exact ⟨by simp, by simpa using eq_of_beq hy⟩
      · rw [if_neg hy] at h
        simp at h

theorem dictLookup_isSome : ∀ (l : List String) (x : String), x ∈ l →
    (dictLookup l x).isSome = true := by
  intro l
  induction l with
  | nil => intro x hx; exact absurd hx (List.not_mem_nil x)
  | cons y l ih =>
    intro x hx
    simp only [dictLookup]
    cases hd : dictLookup l x with
    | some j => simp
    | none =>
      rcases List.mem_cons.1 hx with rfl | hxl
      · simp
      · have := ih x hxl
        rw [hd] at this
        simp at this

theorem dictLookup_getD : ∀ l : List String, l.Nodup → ∀ i : Nat, i < l.length →
    dictLookup l (l.getD i emptyStr) = some i := by
  intro l
  induction l with
  | nil => intro _ i hi; simp at hi
  | cons y l ih =>
    intro hnd i hi
    rw [List.nodup_cons] at hnd
    match i with
    | 0 =>
      show dictLookup (y :: l) y = some 0
      simp only [dictLookup]
      cases hd : dictLookup l y with
      | some j =>
        obtain ⟨hj, hg⟩ := dictLookup_some l y j hd
        exact absurd (hg ▸ getD_mem_of_lt l j hj) hnd.1
      | none => simp
    | i + 1 =>
      show dictLookup (y :: l) (l.getD i emptyStr) = some (i + 1)
      simp only [dictLookup]
      rw [ih hnd.2 i (by simpa using Nat.lt_of_succ_lt_succ hi)]

/-! Membership characterizations for the SQL joins. -/

theorem mem_movie_ids {db : Db} {x : String} : x ∈ movie_ids db ↔
    ∃ m, m ∈ db.movies ∧ m.id = x ∧
      ∃ r, r ∈ db.ratings ∧ r.movie_id = m.id ∧ 1000 < r.num_votes := by
  simp only [movie_ids, snapshotRows, List.mem_map, List.mem_flatMap, List.mem_filter,
    Bool.and_eq_true, beq_iff_eq, decide_eq_true_eq]
  constructor
  · rintro ⟨⟨m, r⟩, ⟨m2, hm2, r2, ⟨hr2, hkey, hv⟩, heq⟩, hid⟩
    obtain ⟨hm, hr⟩ := Prod.mk.injEq .. ▸ heq
    subst hm
    subst hr
    exact ⟨m2, hm2, hid, r2, hr2, hkey, hv⟩
  · rintro ⟨m, hm, hid, r, hr, hkey, hv⟩
    exact ⟨(m, r), ⟨m, hm, r, ⟨hr, hkey, hv⟩, rfl⟩, hid⟩

theorem mem_joinRows {db : Db} {p : RatingRow → Bool} {row : MetaRow} :
    row ∈ joinRows db p ↔
      ∃ m, m ∈ db.movies ∧ ∃ r, r ∈ db.ratings ∧ r.movie_id = m.id ∧ p r = true ∧
        row = ⟨m.id, m.title, m.genres, r.avg_rating, m.start_year⟩ := by
  simp only [joinRows, List.mem_flatMap, List.mem_map, List.mem_filter,
    Bool.and_eq_true, beq_iff_eq]
  constructor
  · rintro ⟨m, hm, r, ⟨hr, hkey, hp⟩, heq⟩
    exact ⟨m, hm, r, hr, hkey, hp, heq.symm⟩
  · rintro ⟨m, hm, r, hr, hkey, hp, heq⟩
    exact ⟨m, hm, r, ⟨hr, hkey, hp⟩, heq.symm⟩

theorem mem_metadataLookup {db : Db} {recs : List String} {row : MetaRow} :
    row ∈ metadataLookup db recs → row.id ∈ recs := by
  intro h
  rw [metadataLookup, mem_sortByRatingDesc, List.mem_filter] at h
  have h2 := h.2
  rw [List.contains_iff_exists_mem_beq] at h2
  obtain ⟨a, ha, hb⟩ := h2
  exact (eq_of_beq hb) ▸ ha

theorem popular_id_mem_movie_ids {db : Db} {limit : Nat} {row : MetaRow} :
    row ∈ get_popular_movies db limit → row.id ∈ movie_ids db := by
  intro h
  rw [get_popular_movies] at h
  have h2 := List.take_subset _ _ h
  rw [mem_sortByRatingDesc, mem_joinRows] at h2
  obtain ⟨m, hm, r, hr, hkey, hp, heq⟩ := h2
  rw [mem_movie_ids]
  refine ⟨m, hm, by rw [heq], r, hr, hkey, ?_⟩
  have : (10000 : Int) < r.num_votes := by simpa using hp
  omega

theorem mem_userMovies {db : Db} {u x : String} : x ∈ userMovies db u ↔
    ∃ v, v ∈ db.viewing_history ∧ v.user_id = u ∧
      ∃ m, m ∈ db.movies ∧ m.id = v.movie_id ∧ m.id = x ∧
        ∃ r, r ∈ db.ratings ∧ r.movie_id = m.id ∧ 1000 < r.num_votes := by
  rw [userMovies, mem_dedupF]
  simp only [List.mem_flatMap, List.mem_map, List.mem_filter, Bool.and_eq_true,
    beq_iff_eq, decide_eq_true_eq]
  constructor
  · rintro ⟨v, ⟨hv, hvu⟩, m, ⟨hm, hmid⟩, r, ⟨hr, hkey, hnv⟩, hid⟩
    exact ⟨v, hv, hvu, m, hm, hmid, hid, r, hr, hkey, hnv⟩
  · rintro ⟨v, hv, hvu, m, hm, hmid, hid, r, hr, hkey, hnv⟩
    exact ⟨v, ⟨hv, hvu⟩, m, ⟨hm, hmid⟩, r, ⟨hr, hkey, hnv⟩, hid⟩

theorem userMovies_subset {db : Db} {u x : String} (h : x ∈ userMovies db u) :
    x ∈ movie_ids db ∧ watched db u x := by
  rw [mem_userMovies] at h
  obtain ⟨v, hv, hvu, m, hm, hmid, hid, r, hr, hkey, hnv⟩ := h
  constructor
  · exact mem_movie_ids.2 ⟨m, hm, hid, r, hr, hkey, hnv⟩
  · exact ⟨v, hv, hvu, by rw [← hid, hmid]⟩

theorem watched_mem_userMovies {db : Db} {u x : String} (hw : watched db u x)
    (hx : x ∈ movie_ids db) : x ∈ userMovies db u := by
  obtain ⟨v, hv, hvu, hvm⟩ := hw
  obtain ⟨m, hm, hid, r, hr, hkey, hnv⟩ := mem_movie_ids.1 hx
  exact mem_userMovies.2 ⟨v, hv, hvu, m, hm, by rw [hid, hvm], hid, r, hr, hkey, hnv⟩

theorem user_movie_indices_ne_nil {db : Db} {u : String} (h : userMovies db u ≠ []) :
    user_movie_indices db u ≠ [] := by
  obtain ⟨x, hx⟩ := List.exists_mem_of_ne_nil _ h
  have hmem := (userMovies_subset hx).1
  have hs := dictLookup_isSome (movie_ids db) x hmem
  obtain ⟨j, hj⟩ := Option.isSome_iff_exists.1 hs
  have : j ∈ user_movie_indices db u :=
    List.mem_filterMap.2 ⟨x, hx, hj⟩
  exact List.ne_nil_of_mem this

/-! Uniqueness of ids in join results, from the key constraints of the
schema (WFdb). -/

theorem filter_keyed_length_le_one {α : Type} (key : α → String) (p : α → Bool) :
    ∀ l : List α, (l.map key).Nodup → ∀ a : String,
      (l.filter (fun r => key r == a && p r)).length ≤ 1 := by
  intro l
  induction l with
  | nil => intro _ a; simp
  | cons r l ih =>
    intro h a
    rw [List.map_cons, List.nodup_cons] at h
    rw [List.filter_cons]
    by_cases hc : (key r == a && p r) = true
    · rw [if_pos hc]
      have hc2 : (key r == a) = true ∧ p r = true := by
        simpa only [Bool.and_eq_true] using hc
      have hkey : key r = a := eq_of_beq hc2.1
      have hnil : l.filter (fun r => key r == a && p r) = [] := by
        rw [List.filter_eq_nil_iff]
        intro r2 hr2 hcon
        have hcon2 : (key r2 == a) = true ∧ p r2 = true := by
          simpa only [Bool.and_eq_true] using hcon
        have hk2 : key r2 = a := eq_of_beq hcon2.1
        exact h.1 (List.mem_map.2 ⟨r2, hr2, by rw [hk2, hkey]⟩)
      rw [hnil]
      simp
    · rw [if_neg hc]
      exact ih h.2 a

theorem nodup_map_of_length_le_one {β : Type} (pid : β → String) (l : List β)
    (h : l.length ≤ 1) : (l.map pid).Nodup := by
  rcases l with _ | ⟨b, _ | ⟨b2, t⟩⟩
  · simp
  · simp
  · simp at h

theorem nodup_flat_ids {β : Type} (g : MovieRow → List β) (pid : β → String)
    (hid : ∀ m, ∀ b ∈ g m, pid b = m.id) (hlen : ∀ m, (g m).length ≤ 1) :
    ∀ ms : List MovieRow, (ms.map MovieRow.id).Nodup → ((ms.flatMap g).map pid).Nodup := by
  intro ms
  induction ms with
  | nil => simp
  | cons m ms ih =>
    intro h
    rw [List.map_cons, List.nodup_cons] at h
    rw [List.flatMap_cons, List.map_append]
    apply List.Nodup.append
    · exact nodup_map_of_length_le_one pid (g m) (hlen m)
    · exact ih h.2
    · intro x hx1 hx2
      rw [List.mem_map] at hx1
      obtain ⟨b, hb, hbx⟩ := hx1
      rw [List.mem_map] at hx2
      obtain ⟨b2, hb2, hbx2⟩ := hx2
      rw [List.mem_flatMap] at hb2
      obtain ⟨m2, hm2, hbm2⟩ := hb2
      have e1 : x = m.id := by rw [← hbx]; exact hid m b hb
      have e2 : x = m2.id := by rw [← hbx2]; exact hid m2 b2 hbm2
      exact h.1 (List.mem_map.2 ⟨m2, hm2, by rw [← e2, e1]⟩)

theorem nodup_movie_ids {db : Db} (h : WFdb db) : (movie_ids db).Nodup := by
  have hid : ∀ m : MovieRow, ∀ b ∈ (db.ratings.filter
      (fun r => r.movie_id == m.id && decide (1000 < r.num_votes))).map (fun r => (m, r)),
      (fun pr : MovieRow × RatingRow => pr.1.id) b = m.id := by
    intro m b hb
    rw [List.mem_map] at hb
    obtain ⟨r, _, hrb⟩ := hb
    rw [← hrb]
  have hlen : ∀ m : MovieRow, ((db.ratings.filter
      (fun r => r.movie_id == m.id && decide (1000 < r.num_votes))).map (fun r => (m, r))).length ≤ 1 := by
    intro m
    rw [List.length_map]
    exact filter_keyed_length_le_one RatingRow.movie_id _ db.ratings h.2 m.id
  exact nodup_flat_ids _ _ hid hlen db.movies h.1

theorem nodup_joinRows_ids {db : Db} (h : WFdb db) (p : RatingRow → Bool) :
    ((joinRows db p).map MetaRow.id).Nodup := by
  have hid : ∀ m : MovieRow, ∀ b ∈ (db.ratings.filter
      (fun r => r.movie_id == m.id && p r)).map
        (fun r => (⟨m.id, m.title, m.genres, r.avg_rating, m.start_year⟩ : MetaRow)),
      MetaRow.id b = m.id := by
    intro m b hb
    rw [List.mem_map] at hb
    obtain ⟨r, _, hrb⟩ := hb
    rw [← hrb]
  have hlen : ∀ m : MovieRow, ((db.ratings.filter
      (fun r => r.movie_id == m.id && p r)).map
        (fun r => (⟨m.id, m.title, m.genres, r.avg_rating, m.start_year⟩ : MetaRow))).length ≤ 1 := by
    intro m
    rw [List.length_map]
    exact filter_keyed_length_le_one RatingRow.movie_id _ db.ratings h.2 m.id
  exact nodup_flat_ids _ _ hid hlen db.movies h.1

theorem metadataLookup_length {db : Db} {recs : List String} (h : WFdb db) :
    (metadataLookup db recs).length ≤ recs.length := by
  rw [metadataLookup, length_sortByRatingDesc]
  have hsub : ((joinRows db (fun _ => true)).filter
      (fun row => recs.contains row.id)).Sublist (joinRows db (fun _ => true)) :=
    List.filter_sublist _
  have hnd : (((joinRows db (fun _ => true)).filter
      (fun row => recs.contains row.id)).map MetaRow.id).Nodup :=
    List.Nodup.sublist (hsub.map MetaRow.id) (nodup_joinRows_ids h _)
  have hss : ∀ x ∈ ((joinRows db (fun _ => true)).filter
      (fun row => recs.contains row.id)).map MetaRow.id, x ∈ recs := by
    intro x hx
    rw [List.mem_map] at hx
    obtain ⟨row, hrow, hxe⟩ := hx
    have h2 := (List.mem_filter.1 hrow).2
    rw [List.contains_iff_exists_mem_beq] at h2
    obtain ⟨a, ha, hb⟩ := h2
    rw [← hxe]
    exact eq_of_beq hb ▸ ha
  calc ((joinRows db (fun _ => true)).filter (fun row => recs.contains row.id)).length
      = (((joinRows db (fun _ => true)).filter
          (fun row => recs.contains row.id)).map MetaRow.id).length := by rw [List.length_map]
    _ = (((joinRows db (fun _ => true)).filter
          (fun row => recs.contains row.id)).map MetaRow.id).toFinset.card :=
        (List.toFinset_card_of_nodup hnd).symm
    _ ≤ recs.toFinset.card := Finset.card_le_card (fun a ha => by
        rw [List.mem_toFinset] at ha ⊢
        exact hss a ha)
    _ ≤ recs.length := List.toFinset_card_le recs

/-- Every id the ranking loop emits is a snapshot id whose exclusion test
is false. -/
theorem ranked_mem {K : Type} [LinearOrderedField K] [DecidableEq K]
    (db : Db) (ex : String → Bool) (limit : Nat) (score : Nat → K) :
    ∀ x ∈ collectLoop (index_to_movie_id db) ex limit
      (argsortDesc score (movie_ids db).length) [],
      x ∈ movie_ids db ∧ ex x = false := by
  intro x hx
  rcases collectLoop_mem _ _ _ _ _ _ hx with h | ⟨i, hi, hxi, hie⟩
  · exact absurd h (List.not_mem_nil x)
  · rw [mem_argsortDesc] at hi
    have hmem : index_to_movie_id db i ∈ movie_ids db := getD_mem_of_lt _ i hi
    exact ⟨hxi ▸ hmem, hxi ▸ hie⟩

/-! Last helper lemmas: contains and getD bridges. -/

theorem contains_eq_true_iff_mem {l : List String} {x : String} :
    l.contains x = true ↔ x ∈ l := by
  rw [List.contains_iff_exists_mem_beq]
  constructor
  · rintro ⟨a, ha, hb⟩
    exact eq_of_beq hb ▸ ha
  · intro h
    exact ⟨x, h, by simp⟩

theorem contains_eq_false_of_not_mem {l : List String} {x : String} (h : ¬ x ∈ l) :
    l.contains x = false := by
  cases hb : l.contains x with
  | false => rfl
  | true => exact absurd (contains_eq_true_iff_mem.1 hb) h

theorem mem_iff_getD {l : List String} {x : String} :
    x ∈ l ↔ ∃ i, i < l.length ∧ l.getD i emptyStr = x := by
  constructor
  · intro h
    obtain ⟨n, hn, he⟩ := List.getElem_of_mem h
    refine ⟨n, hn, ?_⟩
    rw [List.getD_eq_getElem?_getD, List.getElem?_eq_getElem hn]
    simpa using he
  · rintro ⟨i, hi, hg⟩
    exact hg ▸ getD_mem_of_lt l i hi

/-! The claims. -/

/-- C1: the claim states that the metadata join preserves the similarity
ranking.  It does not: the metadata SELECT ends with ORDER BY avg_rating
DESC.  On the concrete catalog exDb1, querying movies similar to tt1 ranks
the ids [tt2, tt3] (descending similarity: tt2 shares its token with tt1,
tt3 is disjoint), yet the rows returned come back ordered [tt3, tt2] by
average rating, so the join reordered the ranking by a secondary key. -/
theorem C1_metadata_join_reorders :
    similarRankedIds ctxQ exDb1 s_tt1 2 = [s_tt2, s_tt3] ∧
    ((get_similar_movies ctxQ exDb1 s_tt1 2).1).map MetaRow.id = [s_tt3, s_tt2] ∧
    ([s_tt3, s_tt2] : List String) ≠ [s_tt2, s_tt3] :=
  ⟨by decide, by decide, by decide⟩

/-- C2: on a snapshot with unique keys, for any contained id and limit at
least 1, get_similar_movies returns at most limit rows and never a row
holding the queried id itself. -/
theorem C2_similar_limit_and_self_exclusion {K : Type} [LinearOrderedField K]
    [DecidableEq K] (C : Ctx K) (db : Db) (m : String) (limit : Nat)
    (hwf : WFdb db) (hlim : 1 ≤ limit) (hm : m ∈ movie_ids db) :
    (get_similar_movies C db m limit).1.length ≤ limit ∧
      ∀ row ∈ (get_similar_movies C db m limit).1, row.id ≠ m := by
  simp only [get_similar_movies, if_pos hm]
  by_cases hr : similarRankedIds C db m limit = []
  · rw [if_pos hr]
    exact ⟨by simp, fun row h => absurd h (List.not_mem_nil row)⟩
  · rw [if_neg hr]
    constructor
    · have h1 : (similarRankedIds C db m limit).length ≤ limit := by
        rw [similarRankedIds]
        exact collectLoop_length _ _ _ _ [] (Nat.lt_of_lt_of_le Nat.zero_lt_one hlim)
      exact le_trans (metadataLookup_length hwf) h1
    · intro row hrow
      have hid := mem_metadataLookup hrow
      rw [similarRankedIds] at hid
      have h2 := (ranked_mem db _ limit _ row.id hid).2
      exact ne_of_beq_false h2

theorem C2_witness : WFdb exDb1 ∧ 1 ≤ 2 ∧ s_tt1 ∈ movie_ids exDb1 ∧
    ((get_similar_movies ctxQ exDb1 s_tt1 2).1.length ≤ 2 ∧
      ∀ row ∈ (get_similar_movies ctxQ exDb1 s_tt1 2).1, row.id ≠ s_tt1) :=
  ⟨by decide, by decide, by decide,
    C2_similar_limit_and_self_exclusion ctxQ exDb1 s_tt1 2 (by decide) (by decide) (by decide)⟩

/-- C4: when the viewing history of the user does not intersect the
snapshot (no rows, or no returned id in the index), the personalized entry
point returns exactly the popularity fallback for the same limit. -/
theorem C4_no_signal_popular_fallback {K : Type} [LinearOrderedField K]
    [DecidableEq K] (C : Ctx K) (db : Db) (u : String) (limit : Nat)
    (h : userMovies db u = [] ∨ ∀ x ∈ userMovies db u, ¬ x ∈ movie_ids db) :
    (get_content_based_recommendations C db u limit).1 = get_popular_movies db limit := by
  have hum : userMovies db u = [] := by
    rcases h with h | h
    · exact h
    · rcases hcase : userMovies db u with _ | ⟨x, l⟩
      · rfl
      · have hx : x ∈ userMovies db u := by
          rw [hcase]
          exact List.mem_cons_self x l
        exact absurd (userMovies_subset hx).1 (h x hx)
  simp only [get_content_based_recommendations, if_pos hum]

theorem C4_witness : (userMovies exDb1 s_u1 = [] ∨
      ∀ x ∈ userMovies exDb1 s_u1, ¬ x ∈ movie_ids exDb1) ∧
    (get_content_based_recommendations ctxQ exDb1 s_u1 3).1 = get_popular_movies exDb1 3 :=
  ⟨Or.inl (by decide), C4_no_signal_popular_fallback ctxQ exDb1 s_u1 3 (Or.inl (by decide))⟩

/-- C7: a movie id absent from the snapshot index makes get_similar_movies
return the empty sequence at once: no error (the embedding is total on this
branch) and no query on the store (the query counter stays 0). -/
theorem C7_absent_id_empty_no_query {K : Type} [LinearOrderedField K]
    [DecidableEq K] (C : Ctx K) (db : Db) (m : String) (limit : Nat)
    (hlim : 1 ≤ limit) (hm : ¬ m ∈ movie_ids db) :
    get_similar_movies C db m limit = ([], 0) := by
  simp only [get_similar_movies, if_neg hm]

theorem C7_witness : 1 ≤ 5 ∧ ¬ s_zzz ∈ movie_ids exDb1 ∧
    get_similar_movies ctxQ exDb1 s_zzz 5 = ([], 0) :=
  ⟨by decide, by decide, C7_absent_id_empty_no_query ctxQ exDb1 s_zzz 5 (by decide) (by decide)⟩

/-- C3 counterexample: the claim states no watched id ever appears in the
personalized output.  On exDb3 the user u1 has watched the only snapshot
movie tt1; every ranked candidate is then excluded, the loop yields nothing
and the code falls back to the popularity query, which returns the watched
movie tt1 itself. -/
theorem C3_counterexample :
    watched exDb3 s_u1 s_tt1 ∧
    (get_content_based_recommendations ctxQ exDb3 s_u1 1).1.map MetaRow.id = [s_tt1] :=
  ⟨by decide, by decide⟩

/-- C3 amended: no watched id appears in the personalized output provided
limit is at least 1 and at least one snapshot movie is unwatched by the
user; when every snapshot movie is watched the code instead falls back to
get_popular_movies, which ignores the seen-set. -/
theorem C3_amended_seen_exclusion {K : Type} [LinearOrderedField K]
    [DecidableEq K] (C : Ctx K) (db : Db) (u : String) (limit : Nat)
    (hlim : 1 ≤ limit) (hun : ∃ x, x ∈ movie_ids db ∧ ¬ watched db u x) :
    ∀ row ∈ (get_content_based_recommendations C db u limit).1, ¬ watched db u row.id := by
  intro row hrow hw
  simp only [get_content_based_recommendations] at hrow
  by_cases hum : userMovies db u = []
  · rw [if_pos hum] at hrow
    have hid : row.id ∈ movie_ids db := popular_id_mem_movie_ids hrow
    have hin : row.id ∈ userMovies db u := watched_mem_userMovies hw hid
    rw [hum] at hin
    exact absurd hin (List.not_mem_nil _)
  · rw [if_neg hum] at hrow
    have hidx := user_movie_indices_ne_nil hum
    rw [if_neg hidx] at hrow
    have hrecs : contentRankedIds C db u limit ≠ [] := by
      obtain ⟨x, hx, hxw⟩ := hun
      rw [contentRankedIds]
      apply collectLoop_ne_nil _ _ _ hlim
      obtain ⟨i, hilt, hgi⟩ := mem_iff_getD.1 hx
      refine ⟨i, mem_argsortDesc _ _ _ |>.2 hilt, ?_⟩
      have hfi : index_to_movie_id db i = x := hgi
      rw [hfi]
      apply contains_eq_false_of_not_mem
      intro hxin
      exact hxw (userMovies_subset hxin).2
    rw [if_neg hrecs] at hrow
    have hid := mem_metadataLookup hrow
    rw [contentRankedIds] at hid
    have h2 := ranked_mem db _ limit _ row.id hid
    have hin : row.id ∈ userMovies db u := watched_mem_userMovies hw h2.1
    rw [contains_eq_true_iff_mem.2 hin] at h2
    exact absurd h2.2 (by simp)

theorem C3_amended_witness : 1 ≤ 1 ∧
    (∃ x, x ∈ movie_ids exDb5 ∧ ¬ watched exDb5 s_u1 x) ∧
    ∀ row ∈ (get_content_based_recommendations ctxQ exDb5 s_u1 1).1,
      ¬ watched exDb5 s_u1 row.id :=
  ⟨by decide, by decide,
    C3_amended_seen_exclusion ctxQ exDb5 s_u1 1 (by decide) (by decide)⟩

/-- C5: personalized scoring is vector averaging: the score of candidate j
equals the cosine of the element-wise mean of the watched rows (the
spec-modelled mean taken first) against row j, scored once per candidate;
and on exDb5 this differs from the contrasted per-item score-averaging
policy, so the order of operations is observable. -/
theorem C5_vector_averaging_refinement {K : Type} [LinearOrderedField K]
    [DecidableEq K] (C : Ctx K) (db : Db) (u : String) (j : Nat)
    (hn : user_movie_indices db u ≠ []) :
    contentScores C db u j = cosineSim C (vocabularyOf C.sw (movie_texts db))
      (specVectorMean ((user_movie_indices db u).map (tfidfRow C db))) (tfidfRow C db j) ∧
    contentScores ctxQ exDb5 s_u2 0 ≠ specScoreAveraging ctxQ exDb5 s_u2 0 := by
  constructor
  · rw [contentScores]
    have hprof : user_profile C db u = specVectorMean ((user_movie_indices db u).map (tfidfRow C db)) := by
      funext t
      rw [user_profile, specVectorMean, List.map_map, List.length_map]
      rfl
    rw [hprof]
  · decide

theorem C5_witness : user_movie_indices exDb5 s_u2 ≠ [] ∧
    (contentScores ctxQ exDb5 s_u2 0 = cosineSim ctxQ (vocabularyOf ctxQ.sw (movie_texts exDb5))
        (specVectorMean ((user_movie_indices exDb5 s_u2).map (tfidfRow ctxQ exDb5)))
        (tfidfRow ctxQ exDb5 0) ∧
      contentScores ctxQ exDb5 s_u2 0 ≠ specScoreAveraging ctxQ exDb5 s_u2 0) :=
  ⟨by decide, C5_vector_averaging_refinement ctxQ exDb5 s_u2 0 (by decide)⟩

/-- C8 counterexample: the claim states that with an empty catalog result
set, initialization fails with DataUnavailable and downstream calls degrade
to an empty sentinel response.  No DataUnavailable exists in the code: on
the empty database, fit_transform raises the empty-vocabulary ValueError,
startup_event re-raises it, and the downstream endpoint answers with error
500, not with the empty list. -/
theorem C8_counterexample :
    initRecommender ctxQ dbEmpty = Except.error emptyVocabMsg ∧
    api_get_recommendations ctxQ dbEmpty s_u1 = Except.error 500 ∧
    api_get_recommendations ctxQ dbEmpty s_u1 ≠ Except.ok [] := by
  refine ⟨rfl, rfl, ?_⟩
  intro h
  rw [show api_get_recommendations ctxQ dbEmpty s_u1 = Except.error 500 from rfl] at h
  exact Except.noConfusion h

/-- C8 amended: when the snapshot query returns no rows, initialization
fails with the empty-vocabulary error of the vectorizer (there is no
DataUnavailable type), and the downstream endpoint, finding the recommender
uninitialized, answers error 500 rather than an empty response. -/
theorem C8_amended_empty_catalog {K : Type} [LinearOrderedField K]
    [DecidableEq K] (C : Ctx K) (db : Db) (u : String) (h : snapshotRows db = []) :
    initRecommender C db = Except.error emptyVocabMsg ∧
    api_get_recommendations C db u = Except.error 500 := by
  have htexts : movie_texts db = [] := by rw [movie_texts, h]; rfl
  have hvocab : vocabularyOf C.sw (movie_texts db) = [] := by rw [htexts]; rfl
  constructor
  · rw [initRecommender, if_pos hvocab]
  · rw [api_get_recommendations, initRecommender, if_pos hvocab]

theorem C8_amended_witness : snapshotRows dbEmpty = [] ∧
    (initRecommender ctxQ dbEmpty = Except.error emptyVocabMsg ∧
      api_get_recommendations ctxQ dbEmpty s_u1 = Except.error 500) :=
  ⟨by decide, C8_amended_empty_catalog ctxQ dbEmpty s_u1 (by decide)⟩

/-- C9 counterexample: the claim states vectorization never fails for a
catalog entry whose text reduces to no token.  When every entry reduces to
no token the vocabulary is empty and fit_transform raises: on dbC9 the only
entry (title of one character, empty genres) tokenizes to nothing and
initialization fails with the empty-vocabulary error. -/
theorem C9_counterexample :
    tokenize ctxQ.sw ((movie_texts dbC9).getD 0 emptyStr) = [] ∧
    (movie_texts dbC9).length = 1 ∧
    initRecommender ctxQ dbC9 = Except.error emptyVocabMsg :=
  ⟨by decide, by decide, rfl⟩

/-- C9 amended: provided the fitted vocabulary is nonempty (some entry
keeps a token), vectorization succeeds, the empty-token entry gets the zero
row (zero-norm normalization short-circuits, nothing divides by zero), and
its similarity score against every row is 0. -/
theorem C9_amended_zero_vector_safety {K : Type} [LinearOrderedField K]
    [DecidableEq K] (C : Ctx K) (db : Db) (i : Nat)
    (hvocab : vocabularyOf C.sw (movie_texts db) ≠ [])
    (hi : i < (movie_texts db).length)
    (htok : tokenize C.sw ((movie_texts db).getD i emptyStr) = []) :
    (initRecommender C db).isOk = true ∧
    ∀ j : Nat, cosineSim C (vocabularyOf C.sw (movie_texts db))
      (tfidfRow C db i) (tfidfRow C db j) = 0 := by
  constructor
  · rw [initRecommender, if_neg hvocab]
    rfl
  · intro j
    have hraw : ∀ t, tfidfRaw C (movie_texts db) ((movie_texts db).getD i emptyStr) t = 0 := by
      intro t
      rw [tfidfRaw, htok]
      simp
    have hrow : ∀ t, tfidfRow C db i t = 0 := by
      intro t
      show tfidfRaw C (movie_texts db) ((movie_texts db).getD i emptyStr) t / _ = 0
      rw [hraw t]
      exact zero_div _
    rw [cosineSim, dotV]
    apply List.sum_eq_zero
    intro x hx
    rw [List.mem_map] at hx
    obtain ⟨t, ht, hxe⟩ := hx
    rw [← hxe]
    have hz : l2normalize C (vocabularyOf C.sw (movie_texts db)) (tfidfRow C db i) t = 0 := by
      show tfidfRow C db i t / _ = 0
      rw [hrow t]
      exact zero_div _
    rw [hz, zero_mul]

theorem C9_amended_witness : vocabularyOf ctxQ.sw (movie_texts dbW9) ≠ [] ∧
    0 < (movie_texts dbW9).length ∧
    tokenize ctxQ.sw ((movie_texts dbW9).getD 0 emptyStr) = [] ∧
    ((initRecommender ctxQ dbW9).isOk = true ∧
      ∀ j : Nat, cosineSim ctxQ (vocabularyOf ctxQ.sw (movie_texts dbW9))
        (tfidfRow ctxQ dbW9 0) (tfidfRow ctxQ dbW9 j) = 0) :=
  ⟨by decide, by decide, by decide,
    C9_amended_zero_vector_safety ctxQ dbW9 0 (by decide) (by decide) (by decide)⟩

/-- C10: on a snapshot with unique keys, movie_id_to_index and
index_to_movie_id are mutually inverse over the snapshot, and every id of
every row either entry point returns is a member of the snapshot loaded at
initialization. -/
theorem C10_index_inverse_and_output_closure {K : Type} [LinearOrderedField K]
    [DecidableEq K] (C : Ctx K) (db : Db) (u m : String) (limit : Nat)
    (hwf : WFdb db) :
    (∀ i, i < (movie_ids db).length →
        movie_id_to_index db (index_to_movie_id db i) = some i) ∧
    (∀ x ∈ movie_ids db, ∃ i, movie_id_to_index db x = some i ∧
        i < (movie_ids db).length ∧ index_to_movie_id db i = x) ∧
    (∀ row ∈ (get_content_based_recommendations C db u limit).1, row.id ∈ movie_ids db) ∧
    (∀ row ∈ (get_similar_movies C db m limit).1, row.id ∈ movie_ids db) := by
  have hnd := nodup_movie_ids hwf
  refine ⟨?_, ?_, ?_, ?_⟩
  · intro i hi
    exact dictLookup_getD (movie_ids db) hnd i hi
  · intro x hx
    have hs := dictLookup_isSome (movie_ids db) x hx
    obtain ⟨i, hi⟩ := Option.isSome_iff_exists.1 hs
    obtain ⟨hlt, hg⟩ := dictLookup_some _ _ _ hi
    exact ⟨i, hi, hlt, hg⟩
  · intro row hrow
    simp only [get_content_based_recommendations] at hrow
    by_cases hum : userMovies db u = []
    · rw [if_pos hum] at hrow
      exact popular_id_mem_movie_ids hrow
    · rw [if_neg hum] at hrow
      by_cases hidx : user_movie_indices db u = []
      · rw [if_pos hidx] at hrow
        exact popular_id_mem_movie_ids hrow
      · rw [if_neg hidx] at hrow
        by_cases hrecs : contentRankedIds C db u limit = []
        · rw [if_pos hrecs] at hrow
          exact popular_id_mem_movie_ids hrow
        · rw [if_neg hrecs] at hrow
          have hid := mem_metadataLookup hrow
          rw [contentRankedIds] at hid
          exact (ranked_mem db _ limit _ row.id hid).1
  · intro row hrow
    simp only [get_similar_movies] at hrow
    by_cases hm2 : m ∈ movie_ids db
    · rw [if_pos hm2] at hrow
      by_cases hrecs : similarRankedIds C db m limit = []
      · rw [if_pos hrecs] at hrow
        exact absurd hrow (List.not_mem_nil row)
      · rw [if_neg hrecs] at hrow
        have hid := mem_metadataLookup hrow
        rw [similarRankedIds] at hid
        exact (ranked_mem db _ limit _ row.id hid).1
    · rw [if_neg hm2] at hrow
      exact absurd hrow (List.not_mem_nil row)

theorem C10_witness : WFdb exDb1 ∧
    ((∀ i, i < (movie_ids exDb1).length →
        movie_id_to_index exDb1 (index_to_movie_id exDb1 i) = some i) ∧
      (∀ x ∈ movie_ids exDb1, ∃ i, movie_id_to_index exDb1 x = some i ∧
        i < (movie_ids exDb1).length ∧ index_to_movie_id exDb1 i = x) ∧
      (∀ row ∈ (get_content_based_recommendations ctxQ exDb1 s_u1 2).1,
        row.id ∈ movie_ids exDb1) ∧
      (∀ row ∈ (get_similar_movies ctxQ exDb1 s_tt1 2).1, row.id ∈ movie_ids exDb1)) :=
  ⟨by decide, C10_index_inverse_and_output_closure ctxQ exDb1 s_u1 s_tt1 2 (by decide)⟩

end RecEngine
